import Mathlib

/-!
Verification of the one-shot SCML utility model (`src/scml/oneshot/ufun.py`,
`src/scml/oneshot/sysagents.py`) against its specification.

The Python classes are shallowly embedded: machine integers become `Int`,
Python float arithmetic on the exact values occurring here becomes `Rat`,
the contract list traversal of `OneShotUFun.__call__` becomes a `List.foldl`,
and the (read-only) `self` object of the loop body is threaded explicitly so
that frame properties are statable.
-/

namespace SCML

/-- The slice of the agent-world interface read by `OneShotUFun.__call__`:
`my_output_product` is read in the loop; `my_input_product` is the other
product the agent trades, used by the specification's description. -/
structure Awi where
  my_input_product : Int
  my_output_product : Int
deriving DecidableEq, Repr

/-- The owner agent of a `OneShotUFun` (field `owner`); only its `awi` is
read by the utility function. -/
structure OneShotAgent where
  awi : Awi
deriving DecidableEq, Repr

/-- A contract as read by `OneShotUFun.__call__`: `signed_at` (negative
means never signed), the traded `product` from the annotation, and the
agreement's `quantity` and `unit_price`. -/
structure Contract where
  signed_at : Int
  product : Int
  quantity : Int
  unit_price : Int
deriving DecidableEq, Repr

/-- The `OneShotUFun` object: owner, exogenous prices/quantities
`pin, qin, pout, qout`, and the rates `cost`, `storage_cost`,
`delivery_penalty` stored by `__init__`. -/
structure OneShotUFun where
  owner : OneShotAgent
  pin : Int
  qin : Int
  pout : Int
  qout : Int
  cost : Rat
  storage_cost : Rat
  delivery_penalty : Rat
deriving DecidableEq, Repr

/-- `OneShotUFun.eval`: the class-method profit formula
`pin - pout - production_cost*min(qin,qout) - storage_cost*max(0,qin-qout)
- delivery_penalty*max(0,qout-qin)`. -/
def OneShotUFun.eval (qin qout pin pout : Int)
    (production_cost storage_cost delivery_penalty : Rat) : Rat :=
  (pin : Rat) - (pout : Rat)
    - production_cost * ((min qin qout : Int) : Rat)
    - storage_cost * ((max 0 (qin - qout) : Int) : Rat)
    - delivery_penalty * ((max 0 (qout - qin) : Int) : Rat)

/-- `OneShotUFun.breach_level`: `0` when `max(qin, qout) < 1`, otherwise
`abs(qin - qout) / max(qin, qout)` (Python true division). -/
def OneShotUFun.breach_level (qin qout : Int) : Rat :=
  if max qin qout < 1 then 0
  else ((|qin - qout| : Int) : Rat) / ((max qin qout : Int) : Rat)

/-- `OneShotUFun.is_breach`: `qin != qout`. -/
def OneShotUFun.is_breach (qin qout : Int) : Bool :=
  qin != qout

/-- One iteration of the loop of `OneShotUFun.__call__` on the running
totals `(qin, qout, pin, pout)`: a contract with `signed_at < 0` is
skipped; one whose product equals the owner's output product adds to
`qout`/`pout`; any other contract adds to `qin`/`pin`. -/
def aggStep (out : Int) (acc : Int × Int × Int × Int) (c : Contract) :
    Int × Int × Int × Int :=
  if c.signed_at < 0 then acc
  else if c.product = out then
    (acc.1, acc.2.1 + c.quantity, acc.2.2.1, acc.2.2.2 + c.unit_price * c.quantity)
  else
    (acc.1 + c.quantity, acc.2.1, acc.2.2.1 + c.unit_price * c.quantity, acc.2.2.2)

/-- The loop body of `OneShotUFun.__call__` with `self` threaded
explicitly: the body reads `self.owner.awi.my_output_product` and updates
only the local totals, leaving `self` as it was. -/
def callLoop (st : OneShotUFun × (Int × Int × Int × Int)) (c : Contract) :
    OneShotUFun × (Int × Int × Int × Int) :=
  (st.1, aggStep st.1.owner.awi.my_output_product st.2 c)

/-- `OneShotUFun.__call__`, returning both the value and the state of the
`self` object after the call. -/
def OneShotUFun.callS (u : OneShotUFun) (contracts : List Contract) :
    Rat × OneShotUFun :=
  let r := contracts.foldl callLoop (u, (0, 0, 0, 0))
  (OneShotUFun.eval (r.1.qin + r.2.1) (r.1.qout + r.2.2.1) (r.1.pin + r.2.2.2.1)
    (r.1.pout + r.2.2.2.2) r.1.cost r.1.storage_cost r.1.delivery_penalty, r.1)

/-- The value returned by `OneShotUFun.__call__`. -/
def OneShotUFun.call (u : OneShotUFun) (contracts : List Contract) : Rat :=
  (u.callS contracts).1

/-- Total quantity the code adds to `qin`: over signed contracts whose
product is NOT the output product. -/
def qinTotal (out : Int) : List Contract → Int
  | [] => 0
  | c :: cs => (if 0 ≤ c.signed_at ∧ c.product ≠ out then c.quantity else 0) + qinTotal out cs

/-- Total quantity added to `qout`: over signed contracts whose product is
the output product. -/
def qoutTotal (out : Int) : List Contract → Int
  | [] => 0
  | c :: cs => (if 0 ≤ c.signed_at ∧ c.product = out then c.quantity else 0) + qoutTotal out cs

/-- Total price the code adds to `pin`: over signed contracts whose product
is NOT the output product. -/
def pinTotal (out : Int) : List Contract → Int
  | [] => 0
  | c :: cs =>
    (if 0 ≤ c.signed_at ∧ c.product ≠ out then c.unit_price * c.quantity else 0)
      + pinTotal out cs

/-- Total price added to `pout`: over signed contracts whose product is the
output product. -/
def poutTotal (out : Int) : List Contract → Int
  | [] => 0
  | c :: cs =>
    (if 0 ≤ c.signed_at ∧ c.product = out then c.unit_price * c.quantity else 0)
      + poutTotal out cs

/-- Quantity total as the specification words it: only signed contracts
whose product equals the owner's INPUT product contribute to `qin`. -/
def qinTotalSpec (inp : Int) : List Contract → Int
  | [] => 0
  | c :: cs => (if 0 ≤ c.signed_at ∧ c.product = inp then c.quantity else 0) + qinTotalSpec inp cs

/-- Price total as the specification words it: only signed contracts whose
product equals the owner's INPUT product contribute to `pin`. -/
def pinTotalSpec (inp : Int) : List Contract → Int
  | [] => 0
  | c :: cs =>
    (if 0 ≤ c.signed_at ∧ c.product = inp then c.unit_price * c.quantity else 0)
      + pinTotalSpec inp cs

/-- The evaluation described by the specification sentence behind C2:
input-side totals range over contracts whose product equals the owner's
input product; output-side totals over those matching the output product;
exogenous values are added and `eval` is applied. -/
def OneShotUFun.specCall (u : OneShotUFun) (cs : List Contract) : Rat :=
  OneShotUFun.eval
    (u.qin + qinTotalSpec u.owner.awi.my_input_product cs)
    (u.qout + qoutTotal u.owner.awi.my_output_product cs)
    (u.pin + pinTotalSpec u.owner.awi.my_input_product cs)
    (u.pout + poutTotal u.owner.awi.my_output_product cs)
    u.cost u.storage_cost u.delivery_penalty

/-- A ufun whose owner buys product 0 and sells product 1, with no
exogenous quantities and zero cost rates. -/
def uThird : OneShotUFun :=
  { owner := { awi := { my_input_product := 0, my_output_product := 1 } },
    pin := 0, qin := 0, pout := 0, qout := 0,
    cost := 0, storage_cost := 0, delivery_penalty := 0 }

/-- A signed contract on product 2, which is neither the input product nor
the output product of `uThird`. -/
def cThird : Contract :=
  { signed_at := 0, product := 2, quantity := 1, unit_price := 1 }

end SCML

namespace SCML

theorem foldl_callLoop_eq (u : OneShotUFun) (a : Int × Int × Int × Int)
    (cs : List Contract) :
    cs.foldl callLoop (u, a)
      = (u, cs.foldl (aggStep u.owner.awi.my_output_product) a) := by
  induction cs generalizing a with
  | nil => rfl
  | cons c cs ih => rw [List.foldl_cons, List.foldl_cons]; exact ih _

theorem foldl_aggStep_eq (out : Int) (cs : List Contract) (a b p q : Int) :
    cs.foldl (aggStep out) (a, b, p, q)
      = (a + qinTotal out cs, b + qoutTotal out cs,
          p + pinTotal out cs, q + poutTotal out cs) := by
  induction cs generalizing a b p q with
  | nil => simp [qinTotal, qoutTotal, pinTotal, poutTotal]
  | cons c cs ih =>
    rw [List.foldl_cons]
    by_cases hs : c.signed_at < 0
    · have hs' : ¬ (0 : Int) ≤ c.signed_at := by omega
      simp [aggStep, hs, hs', qinTotal, qoutTotal, pinTotal, poutTotal, ih]
    · have hs' : (0 : Int) ≤ c.signed_at := by omega
      by_cases hp : c.product = out
      · simp [aggStep, hs, hs', hp, ih, qinTotal, qoutTotal, pinTotal, poutTotal,
          Prod.mk.injEq, add_assoc, add_comm, add_left_comm]
      · simp [aggStep, hs, hs', hp, ih, qinTotal, qoutTotal, pinTotal, poutTotal,
          Prod.mk.injEq, add_assoc, add_comm, add_left_comm]

theorem callS_state_eq (u : OneShotUFun) (cs : List Contract) :
    (u.callS cs).2 = u := by
  unfold OneShotUFun.callS
  rw [foldl_callLoop_eq]

/-- C2 counterexample: for the owner of `uThird` (input product 0, output
product 1), the single signed contract `cThird` on product 2 matches
neither product, yet the code adds it to `qin`/`pin`; the value returned by
`__call__` differs from the one the claim's aggregation prescribes. -/
theorem call_counterexample_third_product :
    uThird.call [cThird] ≠ uThird.specCall [cThird] := by
  norm_num [OneShotUFun.call, OneShotUFun.callS, OneShotUFun.specCall, callLoop,
    aggStep, qinTotalSpec, pinTotalSpec, qoutTotal, poutTotal, uThird, cThird,
    OneShotUFun.eval]

/-- C2 (amended): `OneShotUFun.__call__` skips contracts with negative
signing step; each remaining contract whose product equals the owner's
output product adds its quantity to `qout` and quantity times unit price to
`pout`, and each remaining contract whose product is any other product
(whether or not it equals the owner's input product) adds its quantity to
`qin` and quantity times unit price to `pin`; the exogenous values are
added and the result is `eval` of the totals with the stored cost rates. -/
theorem call_aggregation (u : OneShotUFun) (cs : List Contract) :
    u.call cs
      = OneShotUFun.eval
          (u.qin + qinTotal u.owner.awi.my_output_product cs)
          (u.qout + qoutTotal u.owner.awi.my_output_product cs)
          (u.pin + pinTotal u.owner.awi.my_output_product cs)
          (u.pout + poutTotal u.owner.awi.my_output_product cs)
          u.cost u.storage_cost u.delivery_penalty := by
  unfold OneShotUFun.call OneShotUFun.callS
  rw [foldl_callLoop_eq, foldl_aggStep_eq]
  simp

/-- C8: `OneShotUFun.__call__` is pure: it leaves every stored field of the
evaluator unchanged, and calling it again on the state it leaves behind,
with the same contract list, returns the same value. -/
theorem call_is_pure (u : OneShotUFun) (cs : List Contract) :
    (u.callS cs).2.pin = u.pin ∧ (u.callS cs).2.qin = u.qin
      ∧ (u.callS cs).2.pout = u.pout ∧ (u.callS cs).2.qout = u.qout
      ∧ (u.callS cs).2.cost = u.cost
      ∧ (u.callS cs).2.storage_cost = u.storage_cost
      ∧ (u.callS cs).2.delivery_penalty = u.delivery_penalty
      ∧ (u.callS cs).2.owner = u.owner
      ∧ ((u.callS cs).2.callS cs).1 = (u.callS cs).1 := by
  simp [callS_state_eq u cs]

/-- C3 counterexample: `qin = 0` and `qout = 5` are non-negative, yet
`breach_level 0 5 = 5 / 5 = 1`, which is not strictly less than 1. -/
theorem breach_level_attains_one :
    (0 : Int) ≤ 0 ∧ (0 : Int) ≤ 5 ∧ ¬ OneShotUFun.breach_level 0 5 < 1 := by
  refine ⟨le_refl 0, by norm_num, ?_⟩
  norm_num [OneShotUFun.breach_level]

/-- C3 (amended): for non-negative integer quantities `qin`, `qout`, the
value `OneShotUFun.breach_level qin qout` lies in the closed interval
[0, 1]: it is at least 0 and at most 1 (and the bound 1 is attained, e.g.
when exactly one of the quantities is 0). -/
theorem breach_level_in_unit_interval (qin qout : Int)
    (hin : 0 ≤ qin) (hout : 0 ≤ qout) :
    0 ≤ OneShotUFun.breach_level qin qout
      ∧ OneShotUFun.breach_level qin qout ≤ 1 := by
  unfold OneShotUFun.breach_level
  by_cases h : max qin qout < 1
  · simp [h]
  · simp only [h, if_false]
    have hm : (1 : Int) ≤ max qin qout := by omega
    have hm0 : (0 : Rat) < ((max qin qout : Int) : Rat) := by
      exact_mod_cast lt_of_lt_of_le Int.zero_lt_one hm
    have habs : |qin - qout| ≤ max qin qout := by
      rw [abs_le]
      rcases le_total qin qout with hle | hle
      · rw [max_eq_right hle]; constructor <;> omega
      · rw [max_eq_left hle]; constructor <;> omega
    constructor
    · apply div_nonneg _ (le_of_lt hm0)
      exact_mod_cast abs_nonneg (qin - qout)
    · rw [div_le_one hm0]
      exact_mod_cast habs

/-- Witness for C3's amended theorem at `qin = 3`, `qout = 5`. -/
theorem breach_level_in_unit_interval_witness :
    0 ≤ OneShotUFun.breach_level 3 5 ∧ OneShotUFun.breach_level 3 5 ≤ 1 :=
  breach_level_in_unit_interval 3 5 (by norm_num) (by norm_num)

/-- C7: holding quantities and cost rates fixed, `OneShotUFun.eval` is
monotonically non-decreasing in `pin` and non-increasing in `pout`. -/
theorem eval_monotone_in_prices (qin qout pin pin' pout pout' : Int)
    (pc sc dp : Rat) (hp : pin ≤ pin') (hq : pout ≤ pout') :
    OneShotUFun.eval qin qout pin pout pc sc dp
        ≤ OneShotUFun.eval qin qout pin' pout pc sc dp
      ∧ OneShotUFun.eval qin qout pin pout' pc sc dp
        ≤ OneShotUFun.eval qin qout pin pout pc sc dp := by
  unfold OneShotUFun.eval
  have h1 : ((pin : Int) : Rat) ≤ ((pin' : Int) : Rat) := by exact_mod_cast hp
  have h2 : ((pout : Int) : Rat) ≤ ((pout' : Int) : Rat) := by exact_mod_cast hq
  constructor <;> linarith

/-- Witness for C7 at `qin = 4`, `qout = 10`, `pin = 7 ≤ pin' = 9`,
`pout = 3 ≤ pout' = 8`, rates `1, 2, 3`. -/
theorem eval_monotone_in_prices_witness :
    OneShotUFun.eval 4 10 7 3 1 2 3 ≤ OneShotUFun.eval 4 10 9 3 1 2 3
      ∧ OneShotUFun.eval 4 10 7 8 1 2 3 ≤ OneShotUFun.eval 4 10 7 3 1 2 3 :=
  eval_monotone_in_prices 4 10 7 9 3 8 1 2 3 (by norm_num) (by norm_num)

/-- Division with the zero-denominator fault made explicit: `none` exactly
when Python would raise `ZeroDivisionError`. -/
def divChecked (a b : Rat) : Option Rat :=
  if b = 0 then none else some (a / b)

/-- `OneShotUFun.breach_level` with its division routed through
`divChecked`: the guard `max(qin, qout) < 1` is taken first, exactly as in
the source, and only otherwise is the division attempted. -/
def breach_levelChecked (qin qout : Int) : Option Rat :=
  if max qin qout < 1 then some 0
  else divChecked ((|qin - qout| : Int) : Rat) ((max qin qout : Int) : Rat)

/-- C10: `OneShotUFun.breach_level` is total and never divides by zero: for
every pair of integer arguments the checked variant returns `some` of the
unchecked value (the division, when reached, has denominator
`max qin qout ≥ 1`), and whenever the division is not reached the result
is the guard value 0. -/
theorem breach_level_never_divides_by_zero (qin qout : Int) :
    breach_levelChecked qin qout = some (OneShotUFun.breach_level qin qout)
      ∧ (OneShotUFun.breach_level qin qout = 0 ∨ 1 ≤ max qin qout) := by
  unfold breach_levelChecked OneShotUFun.breach_level divChecked
  by_cases h : max qin qout < 1
  · simp [h]
  · have hm : (1 : Int) ≤ max qin qout := by omega
    have hm0 : max (qin : Rat) (qout : Rat) ≠ 0 := by
      have hpos : (0 : Rat) < ((max qin qout : Int) : Rat) := by
        exact_mod_cast lt_of_lt_of_le Int.zero_lt_one hm
      rw [Int.cast_max] at hpos
      exact ne_of_gt hpos
    simp [h, hm0, hm]

/-- The keyword parameter names accepted by `OneShotUFun.__init__`
(besides `self`); the production-cost rate parameter is named `cost`. -/
def oneShotUFunInitParams : List String :=
  ["owner", "pin", "qin", "pout", "qout", "cost", "storage_cost",
   "delivery_penalty"]

/-- The keyword argument names `DefaultOneShotAdapter.make_ufun` passes to
the `OneShotUFun` constructor. -/
def makeUfunKwargNames : List String :=
  ["owner", "qin", "pin", "qout", "pout", "production_cost", "storage_cost",
   "delivery_penalty", "input_agent", "output_agent"]

/-- Python keyword binding for a function without a `**kwargs` catch-all:
the call raises `TypeError` iff some given keyword is not a parameter. -/
def kwBind (params given : List String) : Except String Unit :=
  if given.all (fun k => params.contains k) then Except.ok ()
  else Except.error "TypeError"

/-- C9: binding the keyword arguments of
`DefaultOneShotAdapter.make_ufun` against `OneShotUFun.__init__`'s
parameter list raises `TypeError`: `production_cost`, `input_agent` and
`output_agent` are not parameters of `__init__` (the cost-rate parameter
is named `cost`), so `make_ufun` can never construct its utility
function. -/
theorem make_ufun_raises_type_error :
    kwBind oneShotUFunInitParams makeUfunKwargNames = Except.error "TypeError"
      ∧ "production_cost" ∉ oneShotUFunInitParams
      ∧ "input_agent" ∉ oneShotUFunInitParams
      ∧ "output_agent" ∉ oneShotUFunInitParams
      ∧ "cost" ∈ oneShotUFunInitParams := by
  refine ⟨rfl, by decide, by decide, by decide, by decide⟩

/-- Modelled from the spec: the repository source under `src/` contains no
ContractExecutor (only the one-shot utility model and the adapter), so the
executed transfer of one contract is modelled from the specification's
words: a delivered quantity of one product moved from a seller agent to a
buyer agent. -/
structure ExecutedTransfer (n : Nat) where
  seller : Fin n
  buyer : Fin n
  product : Nat
  qty : Int

/-- Modelled from the spec: applying one transfer decreases the seller's
inventory of the traded product by the delivered quantity and increases
the buyer's by the same amount; all other inventory cells are untouched. -/
def applyTransfer {n : Nat} (inv : Fin n → Nat → Int) (c : ExecutedTransfer n) :
    Fin n → Nat → Int :=
  fun a p =>
    inv a p - (if a = c.seller ∧ p = c.product then c.qty else 0)
      + (if a = c.buyer ∧ p = c.product then c.qty else 0)

/-- Modelled from the spec: one simulation step first realizes the step's
exogenous supply and sale volumes into the inventories and then executes
the step's contract transfers in order. -/
def stepInventories {n : Nat} (inv supply sale : Fin n → Nat → Int)
    (cs : List (ExecutedTransfer n)) : Fin n → Nat → Int :=
  cs.foldl applyTransfer (fun a p => inv a p + supply a p - sale a p)

end SCML

namespace SCML

theorem sum_applyTransfer {n : Nat} (inv : Fin n → Nat → Int)
    (c : ExecutedTransfer n) (p : Nat) :
    (∑ a, applyTransfer inv c a p) = ∑ a, inv a p := by
  unfold applyTransfer
  rw [Finset.sum_add_distrib, Finset.sum_sub_distrib]
  by_cases hp : p = c.product
  · simp [hp, Finset.sum_ite_eq']
  · simp [hp]

theorem sum_foldl_transfers {n : Nat} (cs : List (ExecutedTransfer n))
    (inv : Fin n → Nat → Int) (p : Nat) :
    (∑ a, (cs.foldl applyTransfer inv) a p) = ∑ a, inv a p := by
  induction cs generalizing inv with
  | nil => rfl
  | cons c cs ih => rw [List.foldl_cons, ih, sum_applyTransfer]

/-- C4: goods conservation within one simulation step: for every product,
the sum over all agents of the inventory change produced by
`stepInventories` equals the net exogenous volume (total exogenous supply
minus total exogenous sale) of that product; contract execution alone
neither creates nor destroys goods. -/
theorem goods_conservation (n : Nat) (inv supply sale : Fin n → Nat → Int)
    (cs : List (ExecutedTransfer n)) (p : Nat) :
    (∑ a, (stepInventories inv supply sale cs a p - inv a p))
      = (∑ a, supply a p) - (∑ a, sale a p) := by
  rw [Finset.sum_sub_distrib]
  unfold stepInventories
  rw [sum_foldl_transfers]
  rw [Finset.sum_sub_distrib, Finset.sum_add_distrib]
  ring

end SCML

namespace SCML

/-- C1: `OneShotUFun.eval` returns exactly
`pin - pout - production_cost*min(qin,qout) - storage_cost*max(0,qin-qout)
- delivery_penalty*max(0,qout-qin)`, and at
`qin=10, qout=10, production_cost=2, storage_cost=5, delivery_penalty=5,
pin=100, pout=300` it returns `-220`. -/
theorem eval_profit_formula :
    (∀ (qin qout pin pout : Int) (pc sc dp : Rat),
      OneShotUFun.eval qin qout pin pout pc sc dp
        = (pin : Rat) - (pout : Rat) - pc * min (qin : Rat) (qout : Rat)
            - sc * max 0 ((qin : Rat) - (qout : Rat))
            - dp * max 0 ((qout : Rat) - (qin : Rat)))
    ∧ OneShotUFun.eval 10 10 100 300 2 5 5 = -220 := by
  constructor
  · intro qin qout pin pout pc sc dp
    unfold OneShotUFun.eval
    push_cast
    ring_nf
  · norm_num [OneShotUFun.eval]

/-- C5: `OneShotUFun.breach_level` returns `0` when `max(qin,qout) < 1` and
`abs(qin-qout)/max(qin,qout)` otherwise; in particular
`breach_level 0 0 = 0` and `breach_level q q = 0` for every `q`. -/
theorem breach_level_definition_and_diagonal :
    (∀ qin qout : Int,
      OneShotUFun.breach_level qin qout
        = if max qin qout < 1 then 0
          else ((|qin - qout| : Int) : Rat) / ((max qin qout : Int) : Rat))
    ∧ OneShotUFun.breach_level 0 0 = 0
    ∧ ∀ q : Int, OneShotUFun.breach_level q q = 0 := by
  refine ⟨fun qin qout => rfl, by norm_num [OneShotUFun.breach_level], fun q => ?_⟩
  unfold OneShotUFun.breach_level
  by_cases h : max q q < 1
  · simp [h]
  · simp [h]

/-- C6: `OneShotUFun.is_breach qin qout` is true iff `qin ≠ qout`; in
particular `is_breach q q` is false for every `q`, including `q = 0`. -/
theorem is_breach_iff_ne :
    (∀ qin qout : Int, OneShotUFun.is_breach qin qout = true ↔ qin ≠ qout)
    ∧ (∀ q : Int, OneShotUFun.is_breach q q = false)
    ∧ OneShotUFun.is_breach 0 0 = false := by
  refine ⟨fun qin qout => ?_, fun q => ?_, by decide⟩
  · simp [OneShotUFun.is_breach]
  · simp [OneShotUFun.is_breach]

end SCML
